/-
Verification of the file-metadata-consistency core of the CloudDrive service
(`backend/file_manager.py`, class `FileManager`) against its specification.

The shallow embedding below models the observable state of a `FileManager`:
the contents of the upload directory (an association list from filename to
file data, which includes the persisted metadata document `metadata.json`
whenever it is present on disk) and the in-memory metadata mapping from
filename to record.  Wall-clock readings (`datetime.now(timezone.utc)`) are
modelled by an explicit `now : Nat` parameter; ISO-8601 rendering is the
identity on these abstract instants, since the code only stores and copies
them.  Byte strings are lists of naturals.
-/
import Mathlib

set_option maxRecDepth 8000

namespace CloudDrive

/-- Byte strings (`bytes` in the Python source). -/
abbrev Bytes := List Nat

/-- One metadata record, as stored in `self.metadata[filename]`
(`file_manager.py`, `save_file` lines 60-65). -/
structure FileRecord where
  uploaded_by : String
  last_modified_by : String
  created_at : Nat
  modified_at : Nat
deriving DecidableEq, Repr

/-- A file on disk: its byte content and its stat timestamps
(`st_ctime` / `st_mtime`, read by `list_files`). -/
structure DiskFile where
  content : Bytes
  ctime : Nat
  mtime : Nat
deriving DecidableEq, Repr

/-- Observable state of a `FileManager`: the upload directory (including the
persisted `metadata.json` document when it exists on disk) and the in-memory
metadata dictionary. -/
structure FMState where
  dir : List (String × DiskFile)
  metadata : List (String × FileRecord)
deriving DecidableEq, Repr

/-- The reserved name of the persisted metadata document
(`self.metadata_file = self.base_dir / "metadata.json"`). -/
def metadataFileName : String := "metadata.json"

/-! ### Association-list primitives

These model Python `dict` lookup/assignment/deletion and directory-entry
lookup/creation/removal.  `alGet` returns the first binding of a key. -/

/-- Lookup of a key (Python `d.get(k)` / `k in d` / `path.exists()`). -/
def alGet (k : String) : List (String × β) → Option β
  | [] => none
  | (k₁, v) :: rest => if k₁ = k then some v else alGet k rest

/-- Insert-or-replace of a binding (Python `d[k] = v`, or writing a file:
replaces an existing entry in place, otherwise appends a fresh one). -/
def alSet : List (String × β) → String → β → List (String × β)
  | [], k, v => [(k, v)]
  | (k₁, v₁) :: rest, k, v =>
    if k₁ = k then (k, v) :: rest else (k₁, v₁) :: alSet rest k v

/-- Removal of a binding (Python `del d[k]` / `dict.pop` / `path.unlink`). -/
def alErase : List (String × β) → String → List (String × β)
  | [], _ => []
  | (k₁, v) :: rest, k => if k₁ = k then rest else (k₁, v) :: alErase rest k

/-! ### Python `pathlib` stem/suffix and the numbered-name scheme -/

/-- `pathlib.PurePath.suffix` and `.stem` in one step: split `name` at the
last dot, provided that dot is neither the first nor the last character;
otherwise the stem is the whole name and the suffix is empty. -/
def splitName (name : String) : String × String :=
  let l := name.data
  match l.reverse.findIdx? (fun c => c == '.') with
  | none => (name, "")
  | some j =>
    let i := l.length - 1 - j
    if 0 < i ∧ i < l.length - 1 then (⟨l.take i⟩, ⟨l.drop i⟩) else (name, "")

/-- `Path.stem` (`file_manager.py` line 39). -/
def pathStem (name : String) : String := (splitName name).1

/-- `Path.suffix` (`file_manager.py` line 40). -/
def pathSuffix (name : String) : String := (splitName name).2

/-- The candidate name `f"{stem} ({counter}){suffix}"` tried by
`_get_unique_filename` (line 43). -/
def numberedName (st sfx : String) (counter : Nat) : String :=
  st ++ " (" ++ Nat.repr counter ++ ")" ++ sfx

/-- The `while True` loop of `_get_unique_filename` (lines 42-47): starting
from counter `c`, return the first counter whose candidate name has no
entry in the directory.  The loop itself is unbounded; here it carries fuel,
and `leastFreeCounter_spec` below proves that the fuel `d.length + 1` used
by `leastFreeCounter` is never exhausted — the result is the least free
counter, exactly what the unbounded scan returns. -/
def scanFree (d : List (String × DiskFile)) (st sfx : String) : Nat → Nat → Nat
  | 0, c => c
  | f + 1, c =>
    if (alGet (numberedName st sfx c) d).isSome then scanFree d st sfx f (c + 1)
    else c

/-- The counter returned by the collision scan, starting at 1. -/
def leastFreeCounter (d : List (String × DiskFile)) (st sfx : String) : Nat :=
  scanFree d st sfx (d.length + 1) 1

/-! ### The `FileManager` operations

Each Python method becomes a state-passing function.  `now : Nat` stands
for the single `datetime.now(timezone.utc)` reading a method performs (for
`sync_folder`, which performs one reading per saved file, the distinct
readings are abstracted by one parameter; no claim observes the
difference). -/

/-- `path.exists()` relative to the upload directory. -/
def fileExists (s : FMState) (name : String) : Bool :=
  (alGet name s.dir).isSome

/-- Writing a file with `open(path, 'wb')`: the content is replaced and the
stat timestamps are refreshed. -/
def dirWrite (d : List (String × DiskFile)) (name : String) (c : Bytes)
    (now : Nat) : List (String × DiskFile) :=
  alSet d name ⟨c, now, now⟩

/-- Modelled serialization of the metadata document: `json.dump` writes the
whole mapping as one non-empty byte string (`{` … `}`).  The exact JSON
bytes are abstracted by an executable encoding; no claim depends on the
encoding, only on the document being (re)written wholesale. -/
def encodeString (s : String) : List Nat :=
  s.length :: s.data.map Char.toNat

def encodeRecord (r : FileRecord) : List Nat :=
  encodeString r.uploaded_by ++ encodeString r.last_modified_by ++
    [r.created_at, r.modified_at]

def serializeMetadata (m : List (String × FileRecord)) : Bytes :=
  123 :: m.foldr (fun p acc => encodeString p.1 ++ encodeRecord p.2 ++ acc) [125]

/-- `_save_metadata` (lines 25-27): rewrites the whole metadata document
under the reserved name inside the upload directory. -/
def saveMetadata (s : FMState) (now : Nat) : FMState :=
  { s with dir := dirWrite s.dir metadataFileName (serializeMetadata s.metadata) now }

/-- `_get_unique_filename` (lines 33-47): returns the requested name when no
file with that name exists, else the first (least) free numbered variant. -/
def getUniqueFilename (s : FMState) (filename : String) : String :=
  if fileExists s filename then
    numberedName (pathStem filename) (pathSuffix filename)
      (leastFreeCounter s.dir (pathStem filename) (pathSuffix filename))
  else filename

/-- `save_file` (lines 49-71): choose a unique name, write the content,
create a fresh record, persist the metadata document. -/
def save_file (s : FMState) (username : String) (file_content : Bytes)
    (filename : String) (now : Nat) : (Bool × String) × FMState :=
  let actual := getUniqueFilename s filename
  let s₁ : FMState := { s with dir := dirWrite s.dir actual file_content now }
  let s₂ : FMState :=
    { s₁ with metadata := alSet s₁.metadata actual ⟨username, username, now, now⟩ }
  ((true, actual), saveMetadata s₂ now)

/-- `update_file_content` (lines 73-92): missing file fails; otherwise the
content is written, and only then is the metadata record (if any) updated
and persisted — a missing record makes the call fail after the write. -/
def update_file_content (s : FMState) (username filename : String)
    (file_content : Bytes) (now : Nat) : Bool × FMState :=
  if fileExists s filename then
    let s₁ : FMState := { s with dir := dirWrite s.dir filename file_content now }
    match alGet filename s₁.metadata with
    | some r =>
      let r₁ : FileRecord := { r with last_modified_by := username, modified_at := now }
      let s₂ : FMState := { s₁ with metadata := alSet s₁.metadata filename r₁ }
      (true, saveMetadata s₂ now)
    | none => (false, s₁)
  else (false, s)

/-- `os.rename`: the directory entry is re-keyed, its data preserved. -/
def osRename (d : List (String × DiskFile)) (oldName newName : String) :
    List (String × DiskFile) :=
  match alGet oldName d with
  | some f => alSet (alErase d oldName) newName f
  | none => d

/-- `rename_file` (lines 94-123): preserves the extension of the old name;
no-ops successfully when the full new name equals the old one; fails on a
missing source or an existing target; otherwise renames on disk and rekeys
the record (if any), stamping the editor. -/
def rename_file (s : FMState) (old_filename new_filename_base username : String)
    (now : Nat) : (Bool × String) × FMState :=
  if fileExists s old_filename then
    let extension := pathSuffix old_filename
    let new_filename := new_filename_base ++ extension
    if old_filename = new_filename then ((true, new_filename), s)
    else if fileExists s new_filename then
      ((false, "A file with the new name already exists."), s)
    else
      let s₁ : FMState := { s with dir := osRename s.dir old_filename new_filename }
      match alGet old_filename s₁.metadata with
      | some r =>
        let r₁ : FileRecord := { r with last_modified_by := username, modified_at := now }
        let s₂ : FMState :=
          { s₁ with metadata := alSet (alErase s₁.metadata old_filename) new_filename r₁ }
        ((true, new_filename), saveMetadata s₂ now)
      | none => ((true, new_filename), s₁)
  else ((false, "Source file not found."), s)

/-- `delete_file` (lines 125-137): missing file fails; otherwise the file is
unlinked, and its record (if any) is removed and the document persisted. -/
def delete_file (s : FMState) (filename : String) (now : Nat) : Bool × FMState :=
  if fileExists s filename then
    let s₁ : FMState := { s with dir := alErase s.dir filename }
    match alGet filename s₁.metadata with
    | some _ =>
      (true, saveMetadata { s₁ with metadata := alErase s₁.metadata filename } now)
    | none => (true, s₁)
  else (false, s)

/-- `get_file_content` (lines 139-148). -/
def get_file_content (s : FMState) (filename : String) : Option Bytes :=
  (alGet filename s.dir).map DiskFile.content

/-- Python `str.lower`, character by character (filenames here are ASCII). -/
def strLower (s : String) : String := ⟨s.data.map Char.toLower⟩

/-- Python `str.endswith`. -/
def strEndsWith (s p : String) : Bool := p.data.isSuffixOf s.data

/-- The extension whitelist of `_is_supported_for_preview` (lines 29-31). -/
def isSupportedForPreview (filename : String) : Bool :=
  (strEndsWith (strLower filename) ".c" || strEndsWith (strLower filename) ".jpg" ||
   strEndsWith (strLower filename) ".jpeg" || strEndsWith (strLower filename) ".py" ||
   strEndsWith (strLower filename) ".png" || strEndsWith (strLower filename) ".txt")

/-- Modelled from Python's stdlib `mimetypes.guess_type` (external to the
repository), restricted to the extensions the repository cares about; the
fallback `'unknown'` is applied by `list_files` (line 172).  No claim
depends on this table. -/
def guessFileType (filename : String) : String :=
  if strEndsWith (strLower filename) ".txt" then "text/plain"
  else if strEndsWith (strLower filename) ".py" then "text/x-python"
  else if strEndsWith (strLower filename) ".c" then "text/x-csrc"
  else if strEndsWith (strLower filename) ".png" then "image/png"
  else if strEndsWith (strLower filename) ".jpg" then "image/jpeg"
  else if strEndsWith (strLower filename) ".jpeg" then "image/jpeg"
  else if strEndsWith (strLower filename) ".json" then "application/json"
  else "unknown"

/-- One element of the list returned by `list_files` (lines 164-174). -/
structure ListEntry where
  id : String
  name : String
  size : Nat
  created_at : Nat
  modified_at : Nat
  uploaded_by : String
  last_modified_by : String
  file_type : String
  is_supported_for_preview : Bool
deriving DecidableEq, Repr

/-- The entry built for one directory file: metadata-document values take
precedence; stat timestamps and `"unknown"` identities are the fallback. -/
def listEntryFor (s : FMState) (name : String) (f : DiskFile) : ListEntry :=
  match alGet name s.metadata with
  | some r =>
    { id := name, name := name, size := f.content.length,
      created_at := r.created_at, modified_at := r.modified_at,
      uploaded_by := r.uploaded_by, last_modified_by := r.last_modified_by,
      file_type := guessFileType name,
      is_supported_for_preview := isSupportedForPreview name }
  | none =>
    { id := name, name := name, size := f.content.length,
      created_at := f.ctime, modified_at := f.mtime,
      uploaded_by := "unknown", last_modified_by := "unknown",
      file_type := guessFileType name,
      is_supported_for_preview := isSupportedForPreview name }

/-- `list_files` (lines 154-175): every regular file except the reserved
metadata document, in directory-enumeration order. -/
def list_files (s : FMState) : List ListEntry :=
  s.dir.filterMap fun p =>
    if p.1 = metadataFileName then none else some (listEntryFor s p.1 p.2)

/-- The structured report returned by `sync_folder`. -/
structure SyncResult where
  status : String
  message : String
  files : List String
deriving DecidableEq, Repr

/-- `sync_folder` (lines 177-198): `local_folder` is `none` when the local
path does not exist or is not a directory, otherwise the list of the
regular files it contains (name and content), in enumeration order.  Every
such file — with no exception for the reserved name — is fed to
`save_file`, and the actual stored names are collected. -/
def sync_folder (s : FMState) (username : String)
    (local_folder : Option (List (String × Bytes))) (now : Nat) :
    SyncResult × FMState :=
  match local_folder with
  | none => (⟨"error", "Local folder does not exist", []⟩, s)
  | some files =>
    let result := files.foldl
      (fun (acc : List String × FMState) p =>
        let r := save_file acc.2 username p.2 p.1 now
        (if r.1.1 then acc.1 ++ [r.1.2] else acc.1, r.2))
      ([], s)
    (⟨"success", "Synced " ++ Nat.repr result.1.length ++ " files", result.1⟩,
      result.2)

/-! ### Concrete states used by witnesses and counterexamples -/

/-- A store holding one file that has no metadata record (the spec requires
such states to be tolerated: the directory is independently mutable). -/
def stateNoRecord : FMState := ⟨[("b.txt", ⟨[5], 10, 20⟩)], []⟩

def recAlice : FileRecord := ⟨"alice", "alice", 1, 1⟩

/-- A store holding one recorded file plus the persisted document. -/
def stateWithRecord : FMState :=
  ⟨[("a.txt", ⟨[1], 1, 1⟩), ("metadata.json", ⟨[123, 125], 1, 1⟩)],
   [("a.txt", recAlice)]⟩

/-- A store holding two recorded files (rename-conflict scenarios). -/
def stateTwoFiles : FMState :=
  ⟨[("a.txt", ⟨[1], 0, 0⟩), ("b.txt", ⟨[2], 0, 0⟩)],
   [("a.txt", ⟨"al", "al", 0, 0⟩), ("b.txt", ⟨"bo", "bo", 0, 0⟩)]⟩

/-- A store where the requested name `a.txt` is already taken. -/
def stateCollide : FMState := ⟨[("a.txt", ⟨[1], 0, 0⟩)], []⟩

/-- A store with the persisted document on disk and nothing else. -/
def stateDocOnly : FMState := ⟨[("metadata.json", ⟨[0], 0, 0⟩)], []⟩

/-- Reachable state: one ordinary save into a fresh store. -/
def stateAfterSave : FMState := (save_file ⟨[], []⟩ "alice" [1, 2] "a.txt" 1).2

/-- Reachable state: a file named like the reserved document was saved into
a fresh store, so the metadata mapping has a record under the reserved
name. -/
def stateReservedRecord : FMState := (save_file ⟨[], []⟩ "u" [1] "metadata.json" 0).2

/-! ### Lemmas about the association-list primitives -/

theorem alGet_cons (k k₁ : String) (v : β) (rest : List (String × β)) :
    alGet k ((k₁, v) :: rest) = if k₁ = k then some v else alGet k rest := rfl

theorem alSet_cons (k k₁ : String) (v v₁ : β) (rest : List (String × β)) :
    alSet ((k₁, v₁) :: rest) k v =
      if k₁ = k then (k, v) :: rest else (k₁, v₁) :: alSet rest k v := rfl

theorem alErase_cons (k k₁ : String) (v : β) (rest : List (String × β)) :
    alErase ((k₁, v) :: rest) k =
      if k₁ = k then rest else (k₁, v) :: alErase rest k := rfl

theorem alGet_alSet_self (m : List (String × β)) (k : String) (v : β) :
    alGet k (alSet m k v) = some v := by
  induction m with
  | nil => simp [alGet, alSet]
  | cons p rest ih =>
    obtain ⟨k₁, v₁⟩ := p
    by_cases hp : k₁ = k
    · simp [alSet_cons, alGet_cons, hp]
    · simp [alSet_cons, alGet_cons, hp, ih]

theorem alGet_alSet_ne (m : List (String × β)) {k₁ k : String} (v : β)
    (h : k₁ ≠ k) : alGet k₁ (alSet m k v) = alGet k₁ m := by
  have hk : k ≠ k₁ := fun he => h he.symm
  induction m with
  | nil => simp [alGet, alSet, hk]
  | cons p rest ih =>
    obtain ⟨k₂, v₂⟩ := p
    rw [alSet_cons]
    by_cases hp : k₂ = k
    · have hp1 : ¬ k₂ = k₁ := by rw [hp]; exact hk
      rw [if_pos hp, alGet_cons, alGet_cons, if_neg hk, if_neg hp1]
    · rw [if_neg hp, alGet_cons, alGet_cons, ih]

theorem alGet_mem {m : List (String × β)} {k : String} {v : β}
    (h : alGet k m = some v) : (k, v) ∈ m := by
  induction m with
  | nil => simp [alGet] at h
  | cons p rest ih =>
    obtain ⟨k₁, v₁⟩ := p
    by_cases hp : k₁ = k
    · rw [alGet_cons, if_pos hp] at h
      injection h with h
      subst hp h
      exact List.mem_cons_self _ _
    · rw [alGet_cons, if_neg hp] at h
      exact List.mem_cons_of_mem _ (ih h)

theorem alGet_isSome_mem {m : List (String × β)} {k : String}
    (h : (alGet k m).isSome = true) : k ∈ m.map Prod.fst := by
  obtain ⟨v, hv⟩ := Option.isSome_iff_exists.mp h
  exact List.mem_map.mpr ⟨(k, v), alGet_mem hv, rfl⟩

theorem alGet_eq_none_of_not_mem {m : List (String × β)} {k : String}
    (h : k ∉ m.map Prod.fst) : alGet k m = none := by
  induction m with
  | nil => rfl
  | cons p rest ih =>
    obtain ⟨k₁, v₁⟩ := p
    simp only [List.map_cons, List.mem_cons] at h
    push_neg at h
    rw [alGet_cons, if_neg (fun he => h.1 he.symm)]
    exact ih h.2

theorem alGet_alErase_self {m : List (String × β)} {k : String}
    (hnd : (m.map Prod.fst).Nodup) : alGet k (alErase m k) = none := by
  induction m with
  | nil => rfl
  | cons p rest ih =>
    obtain ⟨k₁, v₁⟩ := p
    simp only [List.map_cons, List.nodup_cons] at hnd
    rw [alErase_cons]
    by_cases hp : k₁ = k
    · rw [if_pos hp]
      exact alGet_eq_none_of_not_mem (hp ▸ hnd.1)
    · rw [if_neg hp, alGet_cons, if_neg hp]
      exact ih hnd.2

/-! ### Injectivity of `Nat.repr`

Needed to show the collision scan of `_get_unique_filename` always finds a
free name: distinct counters yield distinct candidate names, so a finite
directory cannot occupy them all.  We give a recursive reference
implementation of the core digit printer, show it agrees with
`Nat.toDigitsCore`, and invert it digit by digit. -/

/-- Reference implementation of base-10 digit printing, by well-founded
recursion instead of fuel. -/
def toDigitsRec (n : Nat) : List Char :=
  if _h : n < 10 then [Nat.digitChar n]
  else toDigitsRec (n / 10) ++ [Nat.digitChar (n % 10)]
decreasing_by
  exact Nat.div_lt_self (by omega) (by omega)

/-- Decimal digit value of a digit character. -/
def readDigit (c : Char) : Nat := c.toNat - 48

/-- Read a decimal digit string back into a number. -/
def readNat (l : List Char) : Nat := l.foldl (fun a c => 10 * a + readDigit c) 0

theorem readDigit_digitChar {n : Nat} (h : n < 10) :
    readDigit (Nat.digitChar n) = n := by
  interval_cases n <;> decide

theorem readNat_append_singleton (xs : List Char) (c : Char) :
    readNat (xs ++ [c]) = 10 * readNat xs + readDigit c := by
  simp [readNat, List.foldl_append]

theorem readNat_toDigitsRec (n : Nat) : readNat (toDigitsRec n) = n := by
  induction n using Nat.strong_induction_on with
  | _ n ih =>
    rw [toDigitsRec]
    split
    · rename_i h
      have : readNat [Nat.digitChar n] = readDigit (Nat.digitChar n) := by
        simp [readNat]
      rw [this, readDigit_digitChar h]
    · rename_i h
      rw [readNat_append_singleton,
        ih (n / 10) (Nat.div_lt_self (by omega) (by omega)),
        readDigit_digitChar (Nat.mod_lt n (by omega))]
      omega

theorem toDigitsCore_eq_toDigitsRec (fuel : Nat) :
    ∀ (n : Nat) (acc : List Char), n < fuel →
      Nat.toDigitsCore 10 fuel n acc = toDigitsRec n ++ acc := by
  induction fuel with
  | zero => intro n acc h; omega
  | succ f ih =>
    intro n acc h
    simp only [Nat.toDigitsCore]
    by_cases h10 : n / 10 = 0
    · have hn : n < 10 := by omega
      rw [if_pos h10, toDigitsRec, dif_pos hn, Nat.mod_eq_of_lt hn]
      simp
    · have hge : 10 ≤ n := by
        rcases Nat.lt_or_ge n 10 with h' | h'
        · exact absurd (Nat.div_eq_of_lt h') h10
        · exact h'
      have hdiv : n / 10 < f := by
        have h1 : n / 10 < n := Nat.div_lt_self (by omega) (by omega)
        omega
      have hrn : toDigitsRec n = toDigitsRec (n / 10) ++ [Nat.digitChar (n % 10)] := by
        rw [toDigitsRec]
        exact dif_neg (by omega)
      rw [if_neg h10, ih (n / 10) _ hdiv, hrn]
      simp

theorem reprData_eq_toDigitsRec (n : Nat) : (Nat.repr n).data = toDigitsRec n := by
  show (Nat.toDigits 10 n).asString.data = toDigitsRec n
  rw [Nat.toDigits, toDigitsCore_eq_toDigitsRec (n + 1) n [] (Nat.lt_succ_self n)]
  simp [List.asString]

theorem natRepr_injective : Function.Injective Nat.repr := by
  intro a b h
  have hd : toDigitsRec a = toDigitsRec b := by
    rw [← reprData_eq_toDigitsRec, ← reprData_eq_toDigitsRec, h]
  calc a = readNat (toDigitsRec a) := (readNat_toDigitsRec a).symm
    _ = readNat (toDigitsRec b) := by rw [hd]
    _ = b := readNat_toDigitsRec b

theorem numberedName_injective (st sfx : String) :
    Function.Injective (numberedName st sfx) := by
  intro m n h
  apply natRepr_injective
  have hd := congrArg String.data h
  simp only [numberedName, String.data_append, List.append_assoc] at hd
  have h1 := List.append_cancel_left hd
  have h2 := List.append_cancel_left h1
  have hlen : (Nat.repr m).data.length = (Nat.repr n).data.length := by
    have hl : ((Nat.repr m).data ++ (")".data ++ sfx.data)).length =
        ((Nat.repr n).data ++ (")".data ++ sfx.data)).length := by rw [h2]
    simp only [List.length_append] at hl
    omega
  have := (List.append_inj h2 hlen).1
  exact String.ext this

/-! ### The collision scan terminates and returns the least free counter -/

/-- Pigeonhole: a directory with `L` entries cannot occupy all of the
`L + 1` distinct candidate names numbered `1, …, L + 1`. -/
theorem exists_free_counter (d : List (String × DiskFile)) (st sfx : String) :
    ∃ k, k < d.length + 1 ∧
      (alGet (numberedName st sfx (1 + k)) d).isSome = false := by
  by_contra hcon
  push_neg at hcon
  have hall : ∀ k, k < d.length + 1 →
      (alGet (numberedName st sfx (1 + k)) d).isSome = true := by
    intro k hk
    have h := hcon k hk
    revert h
    cases (alGet (numberedName st sfx (1 + k)) d).isSome <;> simp
  have hinj : Function.Injective (fun k : Nat => numberedName st sfx (1 + k)) := by
    intro a b hab
    have := numberedName_injective st sfx hab
    omega
  have hsub : (Finset.range (d.length + 1)).image
      (fun k => numberedName st sfx (1 + k)) ⊆ (d.map Prod.fst).toFinset := by
    intro x hx
    rw [Finset.mem_image] at hx
    obtain ⟨k, hk, rfl⟩ := hx
    exact List.mem_toFinset.mpr (alGet_isSome_mem (hall k (Finset.mem_range.mp hk)))
  have h1 := Finset.card_le_card hsub
  rw [Finset.card_image_of_injective _ hinj, Finset.card_range] at h1
  have h2 := (d.map Prod.fst).toFinset_card_le
  rw [List.length_map] at h2
  omega

theorem scanFree_succ (d : List (String × DiskFile)) (st sfx : String)
    (f c : Nat) :
    scanFree d st sfx (f + 1) c =
      if (alGet (numberedName st sfx c) d).isSome then scanFree d st sfx f (c + 1)
      else c := rfl

/-- As long as a free counter lies within the fuel, the scan stops at a
free counter, at or past its start, and every counter it skipped was
occupied — i.e. it returns the least free counter from its start. -/
theorem scanFree_spec (d : List (String × DiskFile)) (st sfx : String) :
    ∀ (f c : Nat),
      (∃ k, k < f ∧ (alGet (numberedName st sfx (c + k)) d).isSome = false) →
      (alGet (numberedName st sfx (scanFree d st sfx f c)) d).isSome = false ∧
      c ≤ scanFree d st sfx f c ∧
      ∀ m, c ≤ m → m < scanFree d st sfx f c →
        (alGet (numberedName st sfx m) d).isSome = true := by
  intro f
  induction f with
  | zero =>
    intro c h
    obtain ⟨k, hk, _⟩ := h
    omega
  | succ f ih =>
    intro c h
    rw [scanFree_succ]
    by_cases hc : (alGet (numberedName st sfx c) d).isSome = true
    · rw [if_pos hc]
      have h' : ∃ k, k < f ∧
          (alGet (numberedName st sfx (c + 1 + k)) d).isSome = false := by
        obtain ⟨k, hk, hfree⟩ := h
        cases k with
        | zero =>
          rw [Nat.add_zero] at hfree
          rw [hfree] at hc
          simp at hc
        | succ j =>
          refine ⟨j, by omega, ?_⟩
          rw [show c + 1 + j = c + (j + 1) by omega]
          exact hfree
      obtain ⟨hfree, hle, hmin⟩ := ih (c + 1) h'
      refine ⟨hfree, by omega, ?_⟩
      intro m hm1 hm2
      by_cases hmc : m = c
      · rw [hmc]; exact hc
      · exact hmin m (by omega) hm2
    · rw [if_neg hc]
      have hcf : (alGet (numberedName st sfx c) d).isSome = false := by
        revert hc
        cases (alGet (numberedName st sfx c) d).isSome <;> simp
      exact ⟨hcf, Nat.le_refl c, fun m hm1 hm2 => by omega⟩

/-- The collision scan of `_get_unique_filename` is total: starting from 1
with fuel `d.length + 1` it reaches the least free counter, which is ≥ 1,
free, and minimal among counters ≥ 1. -/
theorem leastFreeCounter_spec (d : List (String × DiskFile)) (st sfx : String) :
    1 ≤ leastFreeCounter d st sfx ∧
    (alGet (numberedName st sfx (leastFreeCounter d st sfx)) d).isSome = false ∧
    ∀ m, 1 ≤ m → m < leastFreeCounter d st sfx →
      (alGet (numberedName st sfx m) d).isSome = true := by
  obtain ⟨k, hk, hfree⟩ := exists_free_counter d st sfx
  have h := scanFree_spec d st sfx (d.length + 1) 1 ⟨k, hk, hfree⟩
  exact ⟨h.2.1, h.1, h.2.2⟩

/-! ### Small facts about `list_files` entries -/

theorem listEntryFor_name (s : FMState) (n : String) (f : DiskFile) :
    (listEntryFor s n f).name = n := by
  rw [listEntryFor]
  cases alGet n s.metadata <;> rfl

theorem listEntryFor_of_no_record (s : FMState) (n : String) (f : DiskFile)
    (h : alGet n s.metadata = none) :
    listEntryFor s n f =
      { id := n, name := n, size := f.content.length,
        created_at := f.ctime, modified_at := f.mtime,
        uploaded_by := "unknown", last_modified_by := "unknown",
        file_type := guessFileType n,
        is_supported_for_preview := isSupportedForPreview n } := by
  rw [listEntryFor, h]


/-! ### Branch equations for the operations -/

theorem getUniqueFilename_eq_of_free {s : FMState} {f : String}
    (h : fileExists s f = false) : getUniqueFilename s f = f := by
  rw [getUniqueFilename, if_neg (by rw [h]; exact Bool.false_ne_true)]

theorem getUniqueFilename_eq_of_taken {s : FMState} {f : String}
    (h : fileExists s f = true) :
    getUniqueFilename s f =
      numberedName (pathStem f) (pathSuffix f)
        (leastFreeCounter s.dir (pathStem f) (pathSuffix f)) := by
  rw [getUniqueFilename, if_pos h]

theorem save_file_eq (s : FMState) (u : String) (c : Bytes) (f : String)
    (now : Nat) :
    save_file s u c f now =
      ((true, getUniqueFilename s f),
        saveMetadata
          ⟨dirWrite s.dir (getUniqueFilename s f) c now,
           alSet s.metadata (getUniqueFilename s f) ⟨u, u, now, now⟩⟩ now) := rfl

theorem update_eq_not_found {s : FMState} (u f : String) (c : Bytes) (now : Nat)
    (h : fileExists s f = false) :
    update_file_content s u f c now = (false, s) := by
  rw [update_file_content, if_neg (by rw [h]; exact Bool.false_ne_true)]

theorem update_eq_no_record {s : FMState} (u f : String) (c : Bytes) (now : Nat)
    (h1 : fileExists s f = true) (h2 : alGet f s.metadata = none) :
    update_file_content s u f c now = (false, ⟨dirWrite s.dir f c now, s.metadata⟩) := by
  rw [update_file_content, if_pos h1]
  dsimp only
  rw [h2]

theorem update_eq_record {s : FMState} (u f : String) (c : Bytes) (now : Nat)
    {r : FileRecord} (h1 : fileExists s f = true)
    (h2 : alGet f s.metadata = some r) :
    update_file_content s u f c now =
      (true, saveMetadata
        ⟨dirWrite s.dir f c now,
         alSet s.metadata f { r with last_modified_by := u, modified_at := now }⟩
        now) := by
  rw [update_file_content, if_pos h1]
  dsimp only
  rw [h2]

theorem rename_eq_not_found {s : FMState} (old b u : String) (now : Nat)
    (h : fileExists s old = false) :
    rename_file s old b u now = ((false, "Source file not found."), s) := by
  rw [rename_file, if_neg (by rw [h]; exact Bool.false_ne_true)]

theorem rename_eq_noop {s : FMState} (old b u : String) (now : Nat)
    (h1 : fileExists s old = true) (h2 : old = b ++ pathSuffix old) :
    rename_file s old b u now = ((true, b ++ pathSuffix old), s) := by
  rw [rename_file, if_pos h1]
  dsimp only
  rw [if_pos h2]

theorem rename_eq_conflict {s : FMState} (old b u : String) (now : Nat)
    (h1 : fileExists s old = true)
    (h2 : ¬ old = b ++ pathSuffix old)
    (h3 : fileExists s (b ++ pathSuffix old) = true) :
    rename_file s old b u now =
      ((false, "A file with the new name already exists."), s) := by
  rw [rename_file, if_pos h1]
  dsimp only
  rw [if_neg h2, if_pos h3]

theorem rename_eq_moved_record {s : FMState} (old b u : String) (now : Nat)
    {r : FileRecord} (h1 : fileExists s old = true)
    (h2 : ¬ old = b ++ pathSuffix old)
    (h3 : fileExists s (b ++ pathSuffix old) = false)
    (h4 : alGet old s.metadata = some r) :
    rename_file s old b u now =
      ((true, b ++ pathSuffix old),
        saveMetadata
          ⟨osRename s.dir old (b ++ pathSuffix old),
           alSet (alErase s.metadata old) (b ++ pathSuffix old)
             { r with last_modified_by := u, modified_at := now }⟩ now) := by
  rw [rename_file, if_pos h1]
  dsimp only
  rw [if_neg h2, if_neg (by rw [h3]; exact Bool.false_ne_true)]
  rw [h4]

theorem rename_eq_moved_no_record {s : FMState} (old b u : String) (now : Nat)
    (h1 : fileExists s old = true)
    (h2 : ¬ old = b ++ pathSuffix old)
    (h3 : fileExists s (b ++ pathSuffix old) = false)
    (h4 : alGet old s.metadata = none) :
    rename_file s old b u now =
      ((true, b ++ pathSuffix old),
        ⟨osRename s.dir old (b ++ pathSuffix old), s.metadata⟩) := by
  rw [rename_file, if_pos h1]
  dsimp only
  rw [if_neg h2, if_neg (by rw [h3]; exact Bool.false_ne_true)]
  rw [h4]

theorem delete_eq_not_found {s : FMState} (f : String) (now : Nat)
    (h : fileExists s f = false) : delete_file s f now = (false, s) := by
  rw [delete_file, if_neg (by rw [h]; exact Bool.false_ne_true)]

theorem delete_eq_record {s : FMState} (f : String) (now : Nat) {r : FileRecord}
    (h1 : fileExists s f = true) (h4 : alGet f s.metadata = some r) :
    delete_file s f now =
      (true, saveMetadata ⟨alErase s.dir f, alErase s.metadata f⟩ now) := by
  rw [delete_file, if_pos h1]
  dsimp only
  rw [h4]

theorem delete_eq_no_record {s : FMState} (f : String) (now : Nat)
    (h1 : fileExists s f = true) (h4 : alGet f s.metadata = none) :
    delete_file s f now = (true, ⟨alErase s.dir f, s.metadata⟩) := by
  rw [delete_file, if_pos h1]
  dsimp only
  rw [h4]

/-! ## The claims -/

/-- C1 (amended).  `update_content(editor, filename, content)` returns false
and leaves the state unchanged when no file with that name exists.  When the
file exists, its content is overwritten with the given bytes; the call
returns true if and only if a metadata record for the name also exists, and
then the record gets `last_modified_by = editor` and `modified_at = now`
(for the reserved document name itself, the overwritten bytes are in turn
rewritten by the final metadata persist).  When the file exists without a
record, the call still overwrites the content, then returns false, the
metadata mapping untouched. -/
theorem claim1_update_content (s : FMState) (editor filename : String)
    (content : Bytes) (now : Nat) :
    (fileExists s filename = false →
      update_file_content s editor filename content now = (false, s)) ∧
    (fileExists s filename = true → alGet filename s.metadata = none →
      (update_file_content s editor filename content now).1 = false ∧
      alGet filename (update_file_content s editor filename content now).2.dir =
        some ⟨content, now, now⟩ ∧
      (update_file_content s editor filename content now).2.metadata = s.metadata) ∧
    (∀ r, fileExists s filename = true → alGet filename s.metadata = some r →
      (update_file_content s editor filename content now).1 = true ∧
      (filename ≠ metadataFileName →
        alGet filename (update_file_content s editor filename content now).2.dir =
          some ⟨content, now, now⟩) ∧
      alGet filename (update_file_content s editor filename content now).2.metadata =
        some { r with last_modified_by := editor, modified_at := now }) := by
  refine ⟨?_, ?_, ?_⟩
  · intro h
    exact update_eq_not_found editor filename content now h
  · intro h1 h2
    rw [update_eq_no_record editor filename content now h1 h2]
    exact ⟨rfl, by rw [dirWrite, alGet_alSet_self], rfl⟩
  · intro r h1 h2
    rw [update_eq_record editor filename content now h1 h2]
    refine ⟨rfl, ?_, ?_⟩
    · intro hne
      rw [saveMetadata]
      dsimp only
      rw [dirWrite, dirWrite, alGet_alSet_ne _ _ hne, alGet_alSet_self]
    · rw [saveMetadata]
      dsimp only
      rw [alGet_alSet_self]

/-- C1 witness: a store with one recorded file; updating it succeeds and
rewrites only the volatile record fields. -/
theorem claim1_witness :
    fileExists stateWithRecord "a.txt" = true ∧
    alGet "a.txt" stateWithRecord.metadata = some recAlice ∧
    ((update_file_content stateWithRecord "bob" "a.txt" [9] 7).1 = true ∧
     ("a.txt" ≠ metadataFileName →
       alGet "a.txt" (update_file_content stateWithRecord "bob" "a.txt" [9] 7).2.dir =
         some ⟨[9], 7, 7⟩) ∧
     alGet "a.txt" (update_file_content stateWithRecord "bob" "a.txt" [9] 7).2.metadata =
       some { recAlice with last_modified_by := "bob", modified_at := 7 }) :=
  ⟨by decide, by decide,
    (claim1_update_content stateWithRecord "bob" "a.txt" [9] 7).2.2 recAlice
      (by decide) (by decide)⟩

/-- C1 counterexample: `b.txt` is present on disk (no metadata record, a
state the spec itself requires to be tolerated), yet `update_content`
returns false — refuting "otherwise it returns true". -/
theorem claim1_counterexample :
    fileExists stateNoRecord "b.txt" = true ∧
    (update_file_content stateNoRecord "u" "b.txt" [1] 5).1 = false := by decide

/-- C2 (amended).  `save` never reports failure; a failing `rename` or
`delete` leaves the state exactly as it was; a failing `update_content`
leaves the state unchanged when the failure is a missing file — but an
`update_content` that fails because the existing file has no metadata
record has already overwritten the file content (see the
counterexample). -/
theorem claim2_failure_preserves_state (s : FMState) (u b f : String)
    (c : Bytes) (now : Nat) :
    ((save_file s u c f now).1.1 = true) ∧
    ((rename_file s f b u now).1.1 = false → (rename_file s f b u now).2 = s) ∧
    ((delete_file s f now).1 = false → (delete_file s f now).2 = s) ∧
    ((update_file_content s u f c now).1 = false → fileExists s f = false →
      (update_file_content s u f c now).2 = s) := by
  refine ⟨rfl, ?_, ?_, ?_⟩
  · intro h
    by_cases h1 : fileExists s f = true
    · by_cases h2 : f = b ++ pathSuffix f
      · rw [rename_eq_noop f b u now h1 h2] at h
        simp at h
      · by_cases h3 : fileExists s (b ++ pathSuffix f) = true
        · rw [rename_eq_conflict f b u now h1 h2 h3]
        · rw [Bool.not_eq_true] at h3
          cases h4 : alGet f s.metadata with
          | some r =>
            rw [rename_eq_moved_record f b u now h1 h2 h3 h4] at h
            simp at h
          | none =>
            rw [rename_eq_moved_no_record f b u now h1 h2 h3 h4] at h
            simp at h
    · rw [Bool.not_eq_true] at h1
      rw [rename_eq_not_found f b u now h1]
  · intro h
    by_cases h1 : fileExists s f = true
    · cases h4 : alGet f s.metadata with
      | some r =>
        rw [delete_eq_record f now h1 h4] at h
        simp at h
      | none =>
        rw [delete_eq_no_record f now h1 h4] at h
        simp at h
    · rw [Bool.not_eq_true] at h1
      rw [delete_eq_not_found f now h1]
  · intro _ h2
    rw [update_eq_not_found u f c now h2]

/-- C2 witness: failing rename, delete and update calls on a concrete
store, each leaving the store untouched. -/
theorem claim2_witness :
    (rename_file stateNoRecord "nope.txt" "x" "u" 0).2 = stateNoRecord ∧
    (delete_file stateNoRecord "nope.txt" 0).2 = stateNoRecord ∧
    (update_file_content stateNoRecord "u" "nope.txt" [1] 0).2 = stateNoRecord :=
  ⟨(claim2_failure_preserves_state stateNoRecord "u" "x" "nope.txt" [1] 0).2.1
      (by decide),
   (claim2_failure_preserves_state stateNoRecord "u" "x" "nope.txt" [1] 0).2.2.1
      (by decide),
   (claim2_failure_preserves_state stateNoRecord "u" "x" "nope.txt" [1] 0).2.2.2
      (by decide) (by decide)⟩

/-- C2 counterexample: in the reachable state after saving `a.txt` into a
fresh store, updating the on-disk (but recordless) `metadata.json` reports
failure yet has mutated the directory — the failure is not
state-preserving. -/
theorem claim2_counterexample :
    (update_file_content stateAfterSave "bob" "metadata.json" [9] 2).1 = false ∧
    (update_file_content stateAfterSave "bob" "metadata.json" [9] 2).2 ≠
      stateAfterSave := by decide


/-- C3 (amended).  The reserved metadata document name never appears in the
output of `list()`; but `sync_from_local` does NOT filter the reserved
name — a local regular file named like the reserved document is passed to
`save` exactly like any other file (and its stored name and resulting
state are those `save` produces). -/
theorem claim3_reserved_name :
    (∀ (s : FMState), ∀ e ∈ list_files s, e.name ≠ metadataFileName) ∧
    (∀ (s : FMState) (u : String) (c : Bytes) (now : Nat),
      sync_folder s u (some [(metadataFileName, c)]) now =
        (⟨"success", "Synced " ++ Nat.repr 1 ++ " files",
           [(save_file s u c metadataFileName now).1.2]⟩,
         (save_file s u c metadataFileName now).2)) := by
  constructor
  · intro s e he
    rw [list_files, List.mem_filterMap] at he
    obtain ⟨p, _, heq⟩ := he
    by_cases hm : p.1 = metadataFileName
    · rw [if_pos hm] at heq
      cases heq
    · rw [if_neg hm] at heq
      injection heq with heq
      rw [← heq, listEntryFor_name]
      exact hm
  · intro s u c now
    rfl

/-- C3 witness: a concrete listing that omits the reserved document, and a
concrete sync call whose report carries the name `save` chose. -/
theorem claim3_witness :
    listEntryFor stateWithRecord "a.txt" ⟨[1], 1, 1⟩ ∈ list_files stateWithRecord ∧
    (listEntryFor stateWithRecord "a.txt" ⟨[1], 1, 1⟩).name ≠ metadataFileName :=
  have hm : listEntryFor stateWithRecord "a.txt" ⟨[1], 1, 1⟩ ∈
      list_files stateWithRecord := by
    rw [(by decide :
      list_files stateWithRecord = [listEntryFor stateWithRecord "a.txt" ⟨[1], 1, 1⟩])]
    exact List.mem_singleton_self _
  ⟨hm, claim3_reserved_name.1 stateWithRecord _ hm⟩

/-- C3 counterexample: syncing a local folder that contains a regular file
named `metadata.json` into a fresh store does upload it — the report lists
it and the store now holds a file under the reserved name — refuting "that
file is not passed to save". -/
theorem claim3_counterexample :
    (sync_folder ⟨[], []⟩ "u" (some [("metadata.json", [7])]) 3).1.files =
      ["metadata.json"] ∧
    fileExists (sync_folder ⟨[], []⟩ "u" (some [("metadata.json", [7])]) 3).2
      "metadata.json" = true := by decide

/-- C4 (amended).  `save` succeeds for every input; the returned name is
the requested one when free, else `stem (n)suffix` for the least counter
n ≥ 1 (scanned upward from 1) whose name is free; the returned name never
equals a name that existed before the call; and the content is stored
under the returned name — except in the one corner where the returned name
is the reserved document name (requested reserved name, document absent),
whose bytes the final metadata persist immediately overwrites. -/
theorem claim4_collision_naming (s : FMState) (u : String) (c : Bytes)
    (f : String) (now : Nat) :
    ((save_file s u c f now).1.1 = true) ∧
    (fileExists s f = false → (save_file s u c f now).1.2 = f) ∧
    (fileExists s f = true →
      (save_file s u c f now).1.2 =
        numberedName (pathStem f) (pathSuffix f)
          (leastFreeCounter s.dir (pathStem f) (pathSuffix f)) ∧
      1 ≤ leastFreeCounter s.dir (pathStem f) (pathSuffix f) ∧
      (∀ m, 1 ≤ m → m < leastFreeCounter s.dir (pathStem f) (pathSuffix f) →
        fileExists s (numberedName (pathStem f) (pathSuffix f) m) = true)) ∧
    (fileExists s (save_file s u c f now).1.2 = false) ∧
    ((save_file s u c f now).1.2 ≠ metadataFileName →
      alGet (save_file s u c f now).1.2 (save_file s u c f now).2.dir =
        some ⟨c, now, now⟩) := by
  refine ⟨rfl, ?_, ?_, ?_, ?_⟩
  · intro h
    exact getUniqueFilename_eq_of_free h
  · intro h
    refine ⟨getUniqueFilename_eq_of_taken h,
      (leastFreeCounter_spec s.dir (pathStem f) (pathSuffix f)).1, ?_⟩
    intro m hm1 hm2
    exact (leastFreeCounter_spec s.dir (pathStem f) (pathSuffix f)).2.2 m hm1 hm2
  · show fileExists s (getUniqueFilename s f) = false
    by_cases h : fileExists s f = true
    · rw [getUniqueFilename_eq_of_taken h]
      exact (leastFreeCounter_spec s.dir (pathStem f) (pathSuffix f)).2.1
    · rw [Bool.not_eq_true] at h
      rw [getUniqueFilename_eq_of_free h]
      exact h
  · intro hne
    rw [save_file_eq] at hne ⊢
    dsimp only at hne ⊢
    rw [saveMetadata]
    dsimp only
    rw [dirWrite, dirWrite, alGet_alSet_ne _ _ hne, alGet_alSet_self]

/-- C4 witness: saving `a.txt` over an existing `a.txt` yields
`a (1).txt` — the least free counter, a name that did not exist before. -/
theorem claim4_witness :
    fileExists stateCollide "a.txt" = true ∧
    (save_file stateCollide "u" [2] "a.txt" 5).1.2 = "a (1).txt" ∧
    ((save_file stateCollide "u" [2] "a.txt" 5).1.2 =
      numberedName (pathStem "a.txt") (pathSuffix "a.txt")
        (leastFreeCounter stateCollide.dir (pathStem "a.txt") (pathSuffix "a.txt")) ∧
     1 ≤ leastFreeCounter stateCollide.dir (pathStem "a.txt") (pathSuffix "a.txt") ∧
     (∀ m, 1 ≤ m →
       m < leastFreeCounter stateCollide.dir (pathStem "a.txt") (pathSuffix "a.txt") →
       fileExists stateCollide
         (numberedName (pathStem "a.txt") (pathSuffix "a.txt") m) = true)) :=
  ⟨by decide, by decide,
   (claim4_collision_naming stateCollide "u" [2] "a.txt" 5).2.2.1 (by decide)⟩

/-- C4 counterexample: requesting the reserved document name in a fresh
store (the name is free) returns that very name, but the bytes found under
it afterwards are the serialized metadata document, not the content passed
in — refuting "save stores the content under the requested name when it is
free". -/
theorem claim4_counterexample :
    fileExists ⟨[], []⟩ "metadata.json" = false ∧
    (save_file ⟨[], []⟩ "u" [] "metadata.json" 0).1.2 = "metadata.json" ∧
    alGet "metadata.json" (save_file ⟨[], []⟩ "u" [] "metadata.json" 0).2.dir ≠
      some ⟨[], 0, 0⟩ := by decide

/-- C5 (amended).  Saving then immediately reading back under the returned
actual name yields byte-identical content — for every payload, including
the empty one — whenever the returned name is not the reserved document
name (the only exception: requesting the reserved name while the document
is absent, where the metadata persist overwrites the just-written bytes). -/
theorem claim5_roundtrip (s : FMState) (u : String) (c : Bytes) (f : String)
    (now : Nat) (_h1 : (save_file s u c f now).1.1 = true)
    (h2 : (save_file s u c f now).1.2 ≠ metadataFileName) :
    get_file_content (save_file s u c f now).2 (save_file s u c f now).1.2 =
      some c := by
  rw [save_file_eq] at h2 ⊢
  dsimp only at h2 ⊢
  rw [get_file_content, saveMetadata]
  dsimp only
  rw [dirWrite, dirWrite, alGet_alSet_ne _ _ h2, alGet_alSet_self]
  rfl

/-- C5 witness: an empty-store save of `a.txt` reads back byte-identically. -/
theorem claim5_witness :
    (save_file ⟨[], []⟩ "alice" [1, 2] "a.txt" 1).1.1 = true ∧
    (save_file ⟨[], []⟩ "alice" [1, 2] "a.txt" 1).1.2 ≠ metadataFileName ∧
    get_file_content (save_file ⟨[], []⟩ "alice" [1, 2] "a.txt" 1).2
      (save_file ⟨[], []⟩ "alice" [1, 2] "a.txt" 1).1.2 = some [1, 2] :=
  ⟨by decide, by decide,
   claim5_roundtrip ⟨[], []⟩ "alice" [1, 2] "a.txt" 1 (by decide) (by decide)⟩

/-- C5 counterexample: saving the empty payload as `metadata.json` into a
fresh store succeeds and returns that name, but reading it back yields the
serialized metadata document, not the empty payload. -/
theorem claim5_counterexample :
    (save_file ⟨[], []⟩ "u" [] "metadata.json" 0).1.1 = true ∧
    get_file_content (save_file ⟨[], []⟩ "u" [] "metadata.json" 0).2
      (save_file ⟨[], []⟩ "u" [] "metadata.json" 0).1.2 ≠ some [] := by decide

/-- C6 (confirmed).  When the computed new full name (base plus preserved
extension) differs from the source name and a file with it already exists,
`rename` fails and the whole state — in particular the contents and the
metadata records of both files — is exactly as before the call. -/
theorem claim6_rename_conflict (s : FMState) (old b u : String) (now : Nat)
    (h1 : fileExists s old = true)
    (h2 : ¬ old = b ++ pathSuffix old)
    (h3 : fileExists s (b ++ pathSuffix old) = true) :
    (rename_file s old b u now).1.1 = false ∧
    (rename_file s old b u now).2 = s := by
  rw [rename_eq_conflict old b u now h1 h2 h3]
  exact ⟨rfl, rfl⟩

/-- C6 witness: renaming `a.txt` to base `b` while `b.txt` exists fails and
leaves the concrete two-file store untouched. -/
theorem claim6_witness :
    fileExists stateTwoFiles "a.txt" = true ∧
    (¬ "a.txt" = "b" ++ pathSuffix "a.txt") ∧
    fileExists stateTwoFiles ("b" ++ pathSuffix "a.txt") = true ∧
    ((rename_file stateTwoFiles "a.txt" "b" "u" 7).1.1 = false ∧
     (rename_file stateTwoFiles "a.txt" "b" "u" 7).2 = stateTwoFiles) :=
  ⟨by decide, by decide, by decide,
   claim6_rename_conflict stateTwoFiles "a.txt" "b" "u" 7 (by decide) (by decide)
     (by decide)⟩

/-- C7 (confirmed).  A file on disk with no metadata record still gets a
listing entry, with `uploaded_by` and `last_modified_by` equal to
`"unknown"` and timestamps taken from the filesystem stat. -/
theorem claim7_metadata_fallback (s : FMState) (n : String) (f : DiskFile)
    (h1 : alGet n s.dir = some f) (h2 : ¬ n = metadataFileName)
    (h3 : alGet n s.metadata = none) :
    ∃ e ∈ list_files s, e.name = n ∧ e.uploaded_by = "unknown" ∧
      e.last_modified_by = "unknown" ∧ e.created_at = f.ctime ∧
      e.modified_at = f.mtime := by
  refine ⟨listEntryFor s n f, ?_, listEntryFor_name s n f, ?_, ?_, ?_, ?_⟩
  · rw [list_files, List.mem_filterMap]
    exact ⟨(n, f), alGet_mem h1, by rw [if_neg h2]⟩
  · rw [listEntryFor_of_no_record s n f h3]
  · rw [listEntryFor_of_no_record s n f h3]
  · rw [listEntryFor_of_no_record s n f h3]
  · rw [listEntryFor_of_no_record s n f h3]

/-- C7 witness: a concrete recordless file is listed with the fallback
identity and stat timestamps. -/
theorem claim7_witness :
    alGet "b.txt" stateNoRecord.dir = some ⟨[5], 10, 20⟩ ∧
    (∃ e ∈ list_files stateNoRecord, e.name = "b.txt" ∧
      e.uploaded_by = "unknown" ∧ e.last_modified_by = "unknown" ∧
      e.created_at = 10 ∧ e.modified_at = 20) :=
  ⟨by decide,
   claim7_metadata_fallback stateNoRecord "b.txt" ⟨[5], 10, 20⟩ (by decide)
     (by decide) (by decide)⟩

/-- C8 (confirmed).  A successful `update_content` and a successful
`rename` keep the record's `uploaded_by` and `created_at` exactly as they
were; `update_content` rewrites only `last_modified_by`/`modified_at` (and
`rename` additionally rekeys the record). -/
theorem claim8_provenance_immutable (s : FMState) (u old base f : String)
    (c : Bytes) (now : Nat) (r : FileRecord) :
    (alGet f s.metadata = some r → (update_file_content s u f c now).1 = true →
      ∃ q, alGet f (update_file_content s u f c now).2.metadata = some q ∧
        q.uploaded_by = r.uploaded_by ∧ q.created_at = r.created_at ∧
        q.last_modified_by = u ∧ q.modified_at = now) ∧
    (alGet old s.metadata = some r → (rename_file s old base u now).1.1 = true →
      ∃ q, alGet (rename_file s old base u now).1.2
          (rename_file s old base u now).2.metadata = some q ∧
        q.uploaded_by = r.uploaded_by ∧ q.created_at = r.created_at) := by
  constructor
  · intro h2 hsucc
    by_cases h1 : fileExists s f = true
    · rw [update_eq_record u f c now h1 h2]
      dsimp only
      exact ⟨{ r with last_modified_by := u, modified_at := now },
        alGet_alSet_self _ _ _, rfl, rfl, rfl, rfl⟩
    · rw [Bool.not_eq_true] at h1
      rw [update_eq_not_found u f c now h1] at hsucc
      simp at hsucc
  · intro h2 hsucc
    by_cases h1 : fileExists s old = true
    · by_cases hnoop : old = base ++ pathSuffix old
      · rw [rename_eq_noop old base u now h1 hnoop]
        dsimp only
        rw [← hnoop]
        exact ⟨r, h2, rfl, rfl⟩
      · by_cases h3 : fileExists s (base ++ pathSuffix old) = true
        · rw [rename_eq_conflict old base u now h1 hnoop h3] at hsucc
          simp at hsucc
        · rw [Bool.not_eq_true] at h3
          rw [rename_eq_moved_record old base u now h1 hnoop h3 h2]
          dsimp only
          exact ⟨{ r with last_modified_by := u, modified_at := now },
            alGet_alSet_self _ _ _, rfl, rfl⟩
    · rw [Bool.not_eq_true] at h1
      rw [rename_eq_not_found old base u now h1] at hsucc
      simp at hsucc

/-- C8 witness: updating and renaming the concrete recorded file keeps
`uploaded_by = "alice"` and `created_at = 1`. -/
theorem claim8_witness :
    alGet "a.txt" stateWithRecord.metadata = some recAlice ∧
    (update_file_content stateWithRecord "bob" "a.txt" [9] 7).1 = true ∧
    (rename_file stateWithRecord "a.txt" "c" "bob" 7).1.1 = true ∧
    (∃ q, alGet "a.txt"
        (update_file_content stateWithRecord "bob" "a.txt" [9] 7).2.metadata = some q ∧
      q.uploaded_by = recAlice.uploaded_by ∧ q.created_at = recAlice.created_at ∧
      q.last_modified_by = "bob" ∧ q.modified_at = 7) ∧
    (∃ q, alGet (rename_file stateWithRecord "a.txt" "c" "bob" 7).1.2
        (rename_file stateWithRecord "a.txt" "c" "bob" 7).2.metadata = some q ∧
      q.uploaded_by = recAlice.uploaded_by ∧ q.created_at = recAlice.created_at) :=
  ⟨by decide, by decide, by decide,
   (claim8_provenance_immutable stateWithRecord "bob" "a.txt" "c" "a.txt" [9] 7
      recAlice).1 (by decide) (by decide),
   (claim8_provenance_immutable stateWithRecord "bob" "a.txt" "c" "a.txt" [9] 7
      recAlice).2 (by decide) (by decide)⟩

/-- C9 (confirmed).  For every finite directory state and every
stem/suffix there is a least counter n ≥ 1 whose numbered name is free —
every smaller counter being taken — and the collision scan embedded in
`_get_unique_filename` computes exactly that n, so the scan (and hence
`save`) is total. -/
theorem claim9_scan_total (d : List (String × DiskFile)) (st sfx : String) :
    ∃ n, 1 ≤ n ∧ (alGet (numberedName st sfx n) d).isSome = false ∧
      (∀ m, 1 ≤ m → m < n → (alGet (numberedName st sfx m) d).isSome = true) ∧
      leastFreeCounter d st sfx = n :=
  ⟨leastFreeCounter d st sfx, (leastFreeCounter_spec d st sfx).1,
   (leastFreeCounter_spec d st sfx).2.1, (leastFreeCounter_spec d st sfx).2.2,
   rfl⟩

/-- C10 (amended).  `delete` does not guard the reserved name: with the
document on disk it returns true and unlinks the document; afterwards the
document is gone from the directory when (and only when) the metadata
mapping held no record under the reserved name — if it did, the deletion's
own metadata persist immediately rewrites the document. -/
theorem claim10_delete_reserved (s : FMState) (now : Nat)
    (hnd : (s.dir.map Prod.fst).Nodup)
    (h : fileExists s metadataFileName = true) :
    (delete_file s metadataFileName now).1 = true ∧
    (alGet metadataFileName s.metadata = none →
      fileExists (delete_file s metadataFileName now).2 metadataFileName = false) ∧
    (∀ r, alGet metadataFileName s.metadata = some r →
      fileExists (delete_file s metadataFileName now).2 metadataFileName = true) := by
  refine ⟨?_, ?_, ?_⟩
  · cases h4 : alGet metadataFileName s.metadata with
    | some r => rw [delete_eq_record metadataFileName now h h4]
    | none => rw [delete_eq_no_record metadataFileName now h h4]
  · intro h4
    rw [delete_eq_no_record metadataFileName now h h4]
    show (alGet metadataFileName (alErase s.dir metadataFileName)).isSome = false
    rw [alGet_alErase_self hnd]
    rfl
  · intro r h4
    rw [delete_eq_record metadataFileName now h h4]
    show fileExists
      (saveMetadata ⟨alErase s.dir metadataFileName,
        alErase s.metadata metadataFileName⟩ now) metadataFileName = true
    rw [saveMetadata]
    dsimp only
    rw [fileExists]
    dsimp only
    rw [dirWrite, alGet_alSet_self]
    rfl

/-- C10 witness: with only the document on disk and no record under the
reserved name, deleting `metadata.json` returns true and actually removes
the document. -/
theorem claim10_witness :
    (stateDocOnly.dir.map Prod.fst).Nodup ∧
    fileExists stateDocOnly "metadata.json" = true ∧
    alGet "metadata.json" stateDocOnly.metadata = none ∧
    ((delete_file stateDocOnly "metadata.json" 4).1 = true ∧
     fileExists (delete_file stateDocOnly "metadata.json" 4).2 "metadata.json" = false) :=
  ⟨by decide, by decide, by decide,
   (claim10_delete_reserved stateDocOnly 4 (by decide) (by decide)).1,
   (claim10_delete_reserved stateDocOnly 4 (by decide) (by decide)).2.1 (by decide)⟩

/-- C10 counterexample: in the reachable state where a file literally named
`metadata.json` was saved into a fresh store (so the mapping has a record
under the reserved name), deleting `metadata.json` returns true but the
document is still present in the directory afterwards — refuting "removes
the metadata document itself from the store directory". -/
theorem claim10_counterexample :
    fileExists stateReservedRecord "metadata.json" = true ∧
    (delete_file stateReservedRecord "metadata.json" 1).1 = true ∧
    fileExists (delete_file stateReservedRecord "metadata.json" 1).2
      "metadata.json" = true := by decide

end CloudDrive
